import Mathlib

/-!
# Verification of the LaTeX → OMML converter

Shallow embedding of the repository's source (`src/types.ts`, holding the AST
types, the OMML writer and the TeX reader) into Lean 4, together with theorems
settling the specification claims.

Conventions:
* TypeScript string values are `String`, characters `Char`.
* The parser's mutable cursor (`this.input`, `this.pos`) is an explicit state
  record `St` threaded through every parsing function.
* Fallible code (`throw new ParseError`) is `Except ParseError`.
* TypeScript nullable returns (`Exp | null`) are `Option Exp`.
* The mutually recursive parsing procedures terminate in the source by input
  consumption; the embedding makes this explicit with a fuel parameter that is
  more than sufficient for every concrete input evaluated here.
* JavaScript `number` fields (`ESpace.width`, `EScaled.scale`) are embedded as
  `Rat`; every literal appearing in the source is an exact decimal.
-/

namespace LatexOmml

/-- `TeXSymbolType` from src/types.ts. -/
inductive TeXSymbolType where
  | Ord | Op | Bin | Rel | Open | Close | Pun | Accent | Fence
  | TOver | TUnder | Alpha | BotAccent | Rad
deriving DecidableEq

/-- `Alignment` from src/types.ts. -/
inductive Alignment where
  | AlignLeft | AlignCenter | AlignRight
deriving DecidableEq

/-- `FractionType` from src/types.ts. -/
inductive FractionType where
  | NormalFrac | DisplayFrac | InlineFrac | NoLineFrac
deriving DecidableEq

/-- `StrokeType` from src/types.ts. -/
inductive StrokeType where
  | ForwardSlash | BackSlash | XSlash
deriving DecidableEq

/-- `TextType` from src/types.ts. -/
inductive TextType where
  | TextNormal | TextBold | TextItalic | TextMonospace | TextSansSerif
  | TextDoubleStruck | TextScript | TextFraktur | TextBoldItalic
  | TextSansSerifBold | TextSansSerifBoldItalic | TextBoldScript
  | TextBoldFraktur | TextSansSerifItalic
deriving DecidableEq

/-- `DisplayType` from src/types.ts. -/
inductive DisplayType where
  | DisplayBlock | DisplayInline
deriving DecidableEq

mutual
/-- `Exp` from src/types.ts: the discriminated union of AST nodes.
`EDelimited`'s `open` field is renamed `openD` (`open` is a Lean keyword);
`EArray.lines` is a list of rows, each row a list of cells, each cell a list of
expressions, matching the runtime shape built by `parseMatrix`/`makeArray`. -/
inductive Exp where
  | ENumber (value : String)
  | EGrouped (value : List Exp)
  | EDelimited (openD : String) (close : String) (content : List InEDelimited)
  | EIdentifier (value : String)
  | EMathOperator (value : String)
  | ESymbol (symbolType : TeXSymbolType) (value : String)
  | ESpace (width : Rat)
  | ESub (base : Exp) (subscript : Exp)
  | ESuper (base : Exp) (superscript : Exp)
  | ESubsup (base : Exp) (subscript : Exp) (superscript : Exp)
  | EOver (convertible : Bool) (base : Exp) (over : Exp)
  | EUnder (convertible : Bool) (base : Exp) (under : Exp)
  | EUnderover (convertible : Bool) (base : Exp) (under : Exp) (over : Exp)
  | EPhantom (value : Exp)
  | EBoxed (value : Exp)
  | ECancel (strokeType : StrokeType) (value : Exp)
  | EFraction (fractionType : FractionType) (numerator : Exp) (denominator : Exp)
  | ERoot (index : Exp) (base : Exp)
  | ESqrt (value : Exp)
  | EScaled (scale : Rat) (value : Exp)
  | EArray (alignments : List Alignment) (lines : List (List (List Exp)))
  | EText (textType : TextType) (value : String)
  | EStyled (textType : TextType) (value : List Exp)

/-- `InEDelimited` from src/types.ts: an item of a delimited region's content. -/
inductive InEDelimited where
  | Left (value : String)
  | Right (value : Exp)
end

open Exp InEDelimited

/-! ## The parser's binary-operator post-pass (`fixBinList`) -/

/-- Discriminator for the source test `exp.type === 'ESymbol' &&
exp.symbolType === 'Bin'`: returns the symbol's value when it matches. -/
def symBinValue : Exp → Option String
  | ESymbol .Bin v => some v
  | _ => none

/-- Discriminator for the source test `prev.type === 'ESymbol' &&
['Bin', 'Op', 'Rel', 'Open', 'Pun'].includes(prev.symbolType)`. -/
def symIsBinTrigger : Exp → Bool
  | ESymbol .Bin _ => true
  | ESymbol .Op _ => true
  | ESymbol .Rel _ => true
  | ESymbol .Open _ => true
  | ESymbol .Pun _ => true
  | _ => false

/-- Discriminator for the source test `exp.type === 'ESymbol' &&
['Rel', 'Close', 'Pun'].includes(exp.symbolType)`. -/
def symIsRelClosePun : Exp → Bool
  | ESymbol .Rel _ => true
  | ESymbol .Close _ => true
  | ESymbol .Pun _ => true
  | _ => false

/-- One iteration of `fixBinList`'s loop (src/types.ts, `fixBinList`), acting
on the accumulated result kept in reverse order so that the source's
`result[result.length - 1]` is the head of the accumulator. -/
def fixBinStep (acc : List Exp) (exp : Exp) : List Exp :=
  match symBinValue exp with
  | some v =>
    match acc with
    | [] => ESymbol .Ord v :: acc
    | prev :: _ =>
      if symIsBinTrigger prev then ESymbol .Ord v :: acc else exp :: acc
  | none =>
    if symIsRelClosePun exp then
      match acc with
      | [] => exp :: acc
      | prev :: rest =>
        match symBinValue prev with
        | some pv => exp :: ESymbol .Ord pv :: rest
        | none => exp :: prev :: rest
    else exp :: acc

/-- `fixBinList` from src/types.ts: single linear post-pass converting `Bin`
symbols to `Ord` in certain contexts. -/
def fixBinList (exps : List Exp) : List Exp :=
  (exps.foldl fixBinStep []).reverse

/-- The frame relation of the post-pass: an output element either equals the
input element, or is the same `Bin` symbol reclassified to `Ord`. -/
def BinRelax (a b : Exp) : Prop :=
  a = b ∨ ∃ v, a = ESymbol .Bin v ∧ b = ESymbol .Ord v

theorem binRelax_refl (a : Exp) : BinRelax a a := Or.inl rfl

theorem binRelax_bin_ord (v : String) :
    BinRelax (ESymbol .Bin v) (ESymbol .Ord v) := Or.inr ⟨v, rfl, rfl⟩

theorem symBinValue_eq_some {e : Exp} {v : String}
    (h : symBinValue e = some v) : e = ESymbol .Bin v := by
  cases e with
  | ESymbol t w => cases t <;> simp_all [symBinValue]
  | _ => simp_all [symBinValue]

/-- One step of the fold preserves the (reversed) frame relation between the
consumed prefix and the accumulator. -/
theorem fixBinStep_forall₂ {procRev acc : List Exp} (e : Exp)
    (h : List.Forall₂ BinRelax procRev acc) :
    List.Forall₂ BinRelax (e :: procRev) (fixBinStep acc e) := by
  unfold fixBinStep
  cases hv : symBinValue e with
  | some v =>
    obtain rfl := symBinValue_eq_some hv
    simp only [symBinValue]
    cases acc with
    | nil => exact List.Forall₂.cons (binRelax_bin_ord v) h
    | cons prev rest =>
      by_cases ht : symIsBinTrigger prev
      · simp only [ht, if_true]
        exact List.Forall₂.cons (binRelax_bin_ord v) h
      · simp only [ht, if_false, Bool.false_eq_true]
        exact List.Forall₂.cons (binRelax_refl _) h
  | none =>
    simp only [hv]
    by_cases hr : symIsRelClosePun e
    · simp only [hr, if_true]
      cases acc with
      | nil => exact List.Forall₂.cons (binRelax_refl _) h
      | cons prev rest =>
        cases hpv : symBinValue prev with
        | some pv =>
          obtain rfl := symBinValue_eq_some hpv
          simp only [symBinValue]
          cases h with
          | cons hx htail =>
            refine List.Forall₂.cons (binRelax_refl _) (List.Forall₂.cons ?_ htail)
            rcases hx with rfl | ⟨w, hw, habs⟩
            · exact binRelax_bin_ord pv
            · exact absurd habs (by simp)
        | none =>
          simp only [hpv]
          exact List.Forall₂.cons (binRelax_refl _) h
    · simp only [hr, if_false, Bool.false_eq_true]
      exact List.Forall₂.cons (binRelax_refl _) h

theorem fixBin_foldl_forall₂ :
    ∀ (exps acc procRev : List Exp), List.Forall₂ BinRelax procRev acc →
      List.Forall₂ BinRelax (exps.reverse ++ procRev)
        (List.foldl fixBinStep acc exps) := by
  intro exps
  induction exps with
  | nil => intro acc procRev h; simpa using h
  | cons e rest ih =>
    intro acc procRev h
    have h' := fixBinStep_forall₂ e h
    have := ih (fixBinStep acc e) (e :: procRev) h'
    simpa [List.reverse_cons, List.append_assoc] using this

/-! ## Markup node tree and serialization (OMML writer, src/types.ts) -/

end LatexOmml

mutual
/-- `XMLNode` from src/types.ts (writer section): tag, ordered attributes,
ordered children. -/
inductive XMLNode where
  | mk (tag : String) (attrs : List (String × String)) (children : List XMLChild)

/-- A child of an `XMLNode` in the source is `XMLNode | string`. -/
inductive XMLChild where
  | node (n : XMLNode)
  | text (s : String)
end

namespace LatexOmml

open Exp InEDelimited

/-- Replace every occurrence of the single character `c` in `s` by `r`:
the effect of one `str.replace(/c/g, r)` call of the source's `escapeXml`. -/
def replaceChar (c : Char) (r : List Char) (s : List Char) : List Char :=
  (s.map (fun ch => if ch = c then r else [ch])).join

/-- `escapeXml` from src/types.ts: the source chains five global replaces,
ampersand first. -/
def escapeXml (str : String) : String :=
  String.mk
    (replaceChar '\'' "&apos;".data
      (replaceChar '"' "&quot;".data
        (replaceChar '>' "&gt;".data
          (replaceChar '<' "&lt;".data
            (replaceChar '&' "&amp;".data str.data)))))

/-- `'  '.repeat(indent)` from `nodeToString`. -/
def spacesRepeat (n : Nat) : String :=
  String.join (List.replicate n "  ")

mutual
/-- `nodeToString` from src/types.ts: flattens the node tree to text, one
element per line, attributes inlined as escaped `name="value"` pairs.
A node with exactly one text child renders inline; an empty node
self-closes; otherwise children are rendered one level deeper. -/
def nodeToString : XMLChild → Nat → String
  | .text s, _ => s
  | .node (.mk tag attrs children), indent =>
    let spaces := spacesRepeat indent
    let attrsStr :=
      String.join (attrs.map (fun kv => " " ++ kv.1 ++ "=\"" ++ escapeXml kv.2 ++ "\""))
    match children with
    | [] => spaces ++ "<" ++ tag ++ attrsStr ++ "/>"
    | [.text s] =>
      spaces ++ "<" ++ tag ++ attrsStr ++ ">" ++ escapeXml s ++ "</" ++ tag ++ ">"
    | cs =>
      spaces ++ "<" ++ tag ++ attrsStr ++ ">\n" ++
        String.intercalate "\n" (childrenToStrings cs (indent + 1)) ++
        "\n" ++ spaces ++ "</" ++ tag ++ ">"

/-- The `node.children.map(child => nodeToString(child, indent + 1))` part of
`nodeToString`. -/
def childrenToStrings : List XMLChild → Nat → List String
  | [], _ => []
  | c :: cs, indent => nodeToString c indent :: childrenToStrings cs indent
end

/-- The combined per-character effect of `escapeXml`'s five replaces. -/
def escapeChar (c : Char) : List Char :=
  if c = '&' then "&amp;".data
  else if c = '<' then "&lt;".data
  else if c = '>' then "&gt;".data
  else if c = '"' then "&quot;".data
  else if c = '\'' then "&apos;".data
  else [c]

/-- Modelled from the spec: XML unescaping of text/attribute content (the spec
§8 asks that "re-parsing the attribute/text content must recover the original
characters"; no decoder exists in src/, so the standard decoding of the five
entities produced by `escapeXml` is modelled here). -/
def unescapeList : List Char → List Char
  | [] => []
  | c :: rest =>
    if c = '&' ∧ rest.take 4 = ['a', 'm', 'p', ';'] then
      '&' :: unescapeList (rest.drop 4)
    else if c = '&' ∧ rest.take 3 = ['l', 't', ';'] then
      '<' :: unescapeList (rest.drop 3)
    else if c = '&' ∧ rest.take 3 = ['g', 't', ';'] then
      '>' :: unescapeList (rest.drop 3)
    else if c = '&' ∧ rest.take 5 = ['q', 'u', 'o', 't', ';'] then
      '"' :: unescapeList (rest.drop 5)
    else if c = '&' ∧ rest.take 5 = ['a', 'p', 'o', 's', ';'] then
      '\'' :: unescapeList (rest.drop 5)
    else c :: unescapeList rest
termination_by l => l.length
decreasing_by all_goals (simp_wf; try omega)

/-- Modelled from the spec: string-level XML unescaping (see `unescapeList`). -/
def unescapeXml (s : String) : String :=
  String.mk (unescapeList s.data)

/-! ## Character-level characterization of `escapeXml` -/

theorem replaceChar_nil (c : Char) (r : List Char) : replaceChar c r [] = [] := rfl

theorem replaceChar_cons (c : Char) (r : List Char) (x : Char) (xs : List Char) :
    replaceChar c r (x :: xs) = (if x = c then r else [x]) ++ replaceChar c r xs := by
  simp [replaceChar]

theorem replaceChar_append (c : Char) (r : List Char) (a b : List Char) :
    replaceChar c r (a ++ b) = replaceChar c r a ++ replaceChar c r b := by
  simp [replaceChar]

theorem escapeXml_data_nil : (escapeXml (String.mk [])).data = [] := rfl

theorem escapeXml_data_cons (x : Char) (xs : List Char) :
    (escapeXml (String.mk (x :: xs))).data =
      escapeChar x ++ (escapeXml (String.mk xs)).data := by
  show replaceChar '\'' "&apos;".data
      (replaceChar '"' "&quot;".data
        (replaceChar '>' "&gt;".data
          (replaceChar '<' "&lt;".data
            (replaceChar '&' "&amp;".data (x :: xs))))) =
    escapeChar x ++ replaceChar '\'' "&apos;".data
      (replaceChar '"' "&quot;".data
        (replaceChar '>' "&gt;".data
          (replaceChar '<' "&lt;".data
            (replaceChar '&' "&amp;".data xs))))
  by_cases h1 : x = '&'
  · subst h1
    simp [escapeChar, replaceChar_cons, replaceChar_append, replaceChar]
  by_cases h2 : x = '<'
  · subst h2
    simp [escapeChar, replaceChar_cons, replaceChar_append, replaceChar]
  by_cases h3 : x = '>'
  · subst h3
    simp [escapeChar, replaceChar_cons, replaceChar_append, replaceChar]
  by_cases h4 : x = '"'
  · subst h4
    simp [escapeChar, replaceChar_cons, replaceChar_append, replaceChar]
  by_cases h5 : x = '\''
  · subst h5
    simp [escapeChar, replaceChar_cons, replaceChar_append, replaceChar]
  · simp [escapeChar, replaceChar_cons, replaceChar_append, h1, h2, h3, h4, h5]

theorem escapeXml_data_eq (l : List Char) :
    (escapeXml (String.mk l)).data = (l.map escapeChar).join := by
  induction l with
  | nil => rfl
  | cons x xs ih => rw [escapeXml_data_cons, ih]; simp

theorem unescapeList_amp (rest : List Char) :
    unescapeList ('&' :: 'a' :: 'm' :: 'p' :: ';' :: rest) = '&' :: unescapeList rest := by
  rw [unescapeList]
  simp

theorem unescapeList_lt (rest : List Char) :
    unescapeList ('&' :: 'l' :: 't' :: ';' :: rest) = '<' :: unescapeList rest := by
  rw [unescapeList]
  simp

theorem unescapeList_gt (rest : List Char) :
    unescapeList ('&' :: 'g' :: 't' :: ';' :: rest) = '>' :: unescapeList rest := by
  rw [unescapeList]
  simp

theorem unescapeList_quot (rest : List Char) :
    unescapeList ('&' :: 'q' :: 'u' :: 'o' :: 't' :: ';' :: rest) = '"' :: unescapeList rest := by
  rw [unescapeList]
  simp

theorem unescapeList_apos (rest : List Char) :
    unescapeList ('&' :: 'a' :: 'p' :: 'o' :: 's' :: ';' :: rest) = '\'' :: unescapeList rest := by
  rw [unescapeList]
  simp

theorem unescapeList_cons_ne (c : Char) (rest : List Char) (h : ¬c = '&') :
    unescapeList (c :: rest) = c :: unescapeList rest := by
  simp [unescapeList, h]

theorem unescape_escape_data (l : List Char) :
    unescapeList ((escapeXml (String.mk l)).data) = l := by
  induction l with
  | nil =>
    have h0 : (escapeXml (String.mk [])).data = [] := rfl
    rw [h0, unescapeList]
  | cons x xs ih =>
    rw [escapeXml_data_cons]
    by_cases h1 : x = '&'
    · subst h1
      have hd : (escapeChar '&') = ['&', 'a', 'm', 'p', ';'] := rfl
      rw [hd]
      simpa [unescapeList_amp] using ih
    by_cases h2 : x = '<'
    · subst h2
      have hd : (escapeChar '<') = ['&', 'l', 't', ';'] := rfl
      rw [hd]
      simpa [unescapeList_lt] using ih
    by_cases h3 : x = '>'
    · subst h3
      have hd : (escapeChar '>') = ['&', 'g', 't', ';'] := rfl
      rw [hd]
      simpa [unescapeList_gt] using ih
    by_cases h4 : x = '"'
    · subst h4
      have hd : (escapeChar '"') = ['&', 'q', 'u', 'o', 't', ';'] := rfl
      rw [hd]
      simpa [unescapeList_quot] using ih
    by_cases h5 : x = '\''
    · subst h5
      have hd : (escapeChar '\'') = ['&', 'a', 'p', 'o', 's', ';'] := rfl
      rw [hd]
      simpa [unescapeList_apos] using ih
    · have hd : escapeChar x = [x] := by simp [escapeChar, h1, h2, h3, h4, h5]
      rw [hd]
      rw [List.singleton_append, unescapeList_cons_ne x _ h1, ih]

theorem unescape_escape_string (s : String) : unescapeXml (escapeXml s) = s := by
  cases s with
  | mk data => exact congrArg String.mk (unescape_escape_data data)

theorem string_join_nil : String.join ([] : List String) = "" := rfl

theorem string_empty_append (s : String) : "" ++ s = s := by
  cases s with
  | mk data => rfl

/-! ## Claim theorems: escaping and the post-pass -/

/-- C3: the parser's post-pass over a top-level sequence reclassifies the
binary-operator symbol of `[relation, binary]` to ordinary, reclassifies a
lone `[binary]` (length 1) to ordinary, and keeps the binary classification in
`[ordinary, binary, ordinary]`. -/
theorem claim_C3_fixbin_cases :
    (∀ v1 v2 : String,
      fixBinList [ESymbol .Rel v1, ESymbol .Bin v2] =
        [ESymbol .Rel v1, ESymbol .Ord v2]) ∧
    (∀ v : String, fixBinList [ESymbol .Bin v] = [ESymbol .Ord v]) ∧
    (∀ v1 v2 v3 : String,
      fixBinList [ESymbol .Ord v1, ESymbol .Bin v2, ESymbol .Ord v3] =
        [ESymbol .Ord v1, ESymbol .Bin v2, ESymbol .Ord v3]) := by
  refine ⟨fun v1 v2 => ?_, fun v => ?_, fun v1 v2 v3 => ?_⟩ <;> rfl

/-- C10: the binary-operator post-pass is a frame-preserving pass: the output
has the same length and order as the input, each element either equals the
corresponding input element or is the same `Bin`-classified `ESymbol` with its
classification changed to `Ord`, and nothing else changes. -/
theorem claim_C10_fixbin_frame (exps : List Exp) :
    (fixBinList exps).length = exps.length ∧
      List.Forall₂ BinRelax exps (fixBinList exps) := by
  have h := fixBin_foldl_forall₂ exps [] [] List.Forall₂.nil
  rw [List.append_nil] at h
  have h2 : List.Forall₂ BinRelax exps (fixBinList exps) := by
    rw [fixBinList, ← List.forall₂_reverse_iff, List.reverse_reverse]
    exact h
  exact ⟨h2.length_eq.symm, h2⟩

/-- C7: XML-unescaping recovers any string from its `escapeXml` image, and the
serializer `nodeToString` embeds text content and attribute values through
`escapeXml`, so serialized content round-trips. -/
theorem claim_C7_escape_roundtrip :
    (∀ s : String, unescapeXml (escapeXml s) = s) ∧
    (∀ tag text, nodeToString (XMLChild.node (XMLNode.mk tag [] [XMLChild.text text])) 0 =
      "<" ++ tag ++ ">" ++ escapeXml text ++ "</" ++ tag ++ ">") ∧
    (∀ tag key v, nodeToString (XMLChild.node (XMLNode.mk tag [(key, v)] [])) 0 =
      "<" ++ tag ++ " " ++ key ++ "=\"" ++ escapeXml v ++ "\"" ++ "/>") := by
  refine ⟨unescape_escape_string, fun tag text => ?_, fun tag key v => ?_⟩
  · simp [nodeToString, spacesRepeat, string_join_nil, string_empty_append]
  · simp [nodeToString, spacesRepeat, string_join_nil, string_empty_append,
      String.join, String.append_assoc]

/-- C8 counterexample: the claim says serialization escapes "exactly four"
characters and then lists the set `&ltsemi;`…; the escaped set actually has
five members — all five listed characters are altered by `escapeXml`. -/
theorem claim_C8_counterexample :
    ((['&', '<', '>', '"', '\''] : List Char).filter
      (fun c => escapeXml (String.mk [c]) != String.mk [c])).length = 5 := by
  decide

/-- C8 (amended): serialization escapes exactly five characters, namely
`&`, `<`, `>`, `"`, `'`, and escapes no other character: every other
character is left unchanged, and escaping acts independently per character
via `escapeChar`. -/
theorem claim_C8_escape_set :
    (∀ c : Char, ¬(c = '&' ∨ c = '<' ∨ c = '>' ∨ c = '"' ∨ c = '\'') →
      escapeXml (String.mk [c]) = String.mk [c]) ∧
    (∀ c : Char, (c = '&' ∨ c = '<' ∨ c = '>' ∨ c = '"' ∨ c = '\'') →
      escapeXml (String.mk [c]) ≠ String.mk [c]) ∧
    (∀ s : String, (escapeXml s).data = (s.data.map escapeChar).join) := by
  refine ⟨fun c h => ?_, fun c h => ?_, fun s => ?_⟩
  · push_neg at h
    obtain ⟨h1, h2, h3, h4, h5⟩ := h
    have hc : escapeChar c = [c] := by simp [escapeChar, h1, h2, h3, h4, h5]
    have hd : (escapeXml (String.mk [c])).data = [c] := by
      rw [escapeXml_data_cons, hc, escapeXml_data_nil, List.append_nil]
    cases he : escapeXml (String.mk [c]) with
    | mk d => rw [he] at hd; simp_all
  · rcases h with rfl | rfl | rfl | rfl | rfl <;> decide
  · cases s with
    | mk data => exact escapeXml_data_eq data

/-- Witness for `claim_C8_escape_set` at concrete characters. -/
theorem claim_C8_escape_set_witness :
    escapeXml (String.mk ['x']) = String.mk ['x'] ∧
      escapeXml (String.mk ['&']) ≠ String.mk ['&'] :=
  ⟨claim_C8_escape_set.1 'x' (by decide), claim_C8_escape_set.2.1 '&' (Or.inl rfl)⟩

/-! ## OMML writer: helpers -/

/-- `createNode` from src/types.ts: prefixes the tag with `m:`. -/
def createNode (tag : String) (attrs : List (String × String) := [])
    (children : List XMLChild := []) : XMLNode :=
  .mk ("m:" ++ tag) attrs children

/-- `createNodeWithVal` from src/types.ts. -/
def createNodeWithVal (tag : String) (val : String)
    (children : List XMLChild := []) : XMLNode :=
  createNode tag [("m:val", val)] children

/-- Wrap writer-produced nodes as children (the source freely passes
`XMLNode[]` where `(XMLNode | string)[]` is expected). -/
def nodesToChildren (ns : List XMLNode) : List XMLChild :=
  ns.map XMLChild.node

/-- `str` from src/types.ts: a text run, with run properties when present. -/
def str (props : List XMLNode) (text : String) : XMLNode :=
  if props.length = 0 then
    createNode "r" [] [.node (createNode "t" [] [.text text])]
  else
    createNode "r" []
      [.node (createNode "rPr" [] (nodesToChildren props)),
       .node (createNode "t" [] [.text text])]

/-- `setProps` from src/types.ts. -/
def setProps (textType : TextType) : List XMLNode :=
  let sty := fun (val : String) => createNodeWithVal "sty" val
  let scr := fun (val : String) => createNodeWithVal "scr" val
  match textType with
  | .TextNormal => [sty "p"]
  | .TextBold => [sty "b"]
  | .TextItalic => [sty "i"]
  | .TextMonospace => [scr "monospace", sty "p"]
  | .TextSansSerif => [scr "sans-serif", sty "p"]
  | .TextDoubleStruck => [scr "double-struck", sty "p"]
  | .TextScript => [scr "script", sty "p"]
  | .TextFraktur => [scr "fraktur", sty "p"]
  | .TextBoldItalic => [sty "bi"]
  | .TextSansSerifBold => [scr "sans-serif", sty "b"]
  | .TextBoldScript => [scr "script", sty "b"]
  | .TextBoldFraktur => [scr "fraktur", sty "b"]
  | .TextSansSerifItalic => [scr "sans-serif", sty "i"]
  | .TextSansSerifBoldItalic => [scr "sans-serif", sty "bi"]

/-- `defaultTo` from src/types.ts. -/
def defaultTo (textType : TextType) (props : List XMLNode) : List XMLNode :=
  if props.length = 0 then setProps textType else props

/-- `isBarChar` from src/types.ts (takes a one-character string value). -/
def isBarChar (char : String) : Bool :=
  char == "\u203E" || char == "\u00AF" || char == "\u0304" ||
  char == "\u0333" || char == "_"

/-- The glyph list of `isNary` from src/types.ts. -/
def narySymbols : List String :=
  ["\u222B", "\u222C", "\u222D", "\u222E", "\u222F", "\u2230",
   "\u220F", "\u2210", "\u2211"]

/-- `isNary` from src/types.ts. -/
def isNary (exp : Exp) : Bool :=
  match exp with
  | ESymbol .Op v => narySymbols.contains v
  | _ => false

/-- `isUppercaseGreek` from src/types.ts. -/
def isUppercaseGreek (char : String) : Bool :=
  (["\u0393", "\u0394", "\u0398", "\u039B", "\u039E",
    "\u03A0", "\u03A3", "\u03A5", "\u03A6", "\u03A8", "\u03A9"] :
      List String).contains char

/-- JavaScript `\w` character class (ASCII word characters). -/
def isWordChar (c : Char) : Bool :=
  ('a' ≤ c && c ≤ 'z') || ('A' ≤ c && c ≤ 'Z') || ('0' ≤ c && c ≤ '9') || c = '_'

/-- JavaScript `\s` character class. -/
def isJsSpace (c : Char) : Bool :=
  c = ' ' || c = '\t' || c = '\n' || c = '\r' || c = '\x0b' || c = '\x0c' ||
  c = '\u00A0' || c = '\u1680' || ('\u2000' ≤ c && c ≤ '\u200A') ||
  c = '\u2028' || c = '\u2029' || c = '\u202F' || c = '\u205F' ||
  c = '\u3000' || c = '\uFEFF'

/-- The `isSymbolOrPunct` test inside `showExp`'s `ESymbol` case:
`exp.value.length === 1 && /[^\w\s]/.test(exp.value)`. -/
def isSymbolOrPunctValue (v : String) : Bool :=
  v.length = 1 && v.data.any (fun c => !(isWordChar c) && !(isJsSpace c))

/-- The symbol value used by `showExp`'s n-ary group case
(`first.base.type === 'ESymbol' ? first.base.value : ''`). -/
def symValueOrEmpty : Exp → String
  | ESymbol _ v => v
  | _ => ""

/-- The two special two-element group patterns of `showExp`'s `EGrouped` case:
an `EUnderover`/`ESubsup` wrapper around an n-ary base yields the `limLoc`
tag, the n-ary glyph, and the two limit expressions. -/
def naryGroupCase : Exp → Option (String × String × Exp × Exp)
  | EUnderover _ b u o => if isNary b then some ("undOvr", symValueOrEmpty b, u, o) else none
  | ESubsup b s p => if isNary b then some ("subSup", symValueOrEmpty b, s, p) else none
  | _ => none

/-- The `ESpace` width-to-character table from `showExp`. -/
def spaceWidthChar (width : Rat) : String :=
  if width > 0 ∧ width ≤ 0.17 then "\u2009"
  else if width > 0.17 ∧ width ≤ 0.23 then "\u2005"
  else if width > 0.23 ∧ width ≤ 0.28 then "\u2004"
  else if width > 0.28 ∧ width ≤ 0.5 then "\u2004"
  else if width > 0.5 ∧ width ≤ 1.8 then "\u2001"
  else if width > 1.8 then "\u2001\u2001"
  else "\u200B"

/-- `makeText` from src/types.ts. -/
def makeText (textType : TextType) (text : String) : XMLNode :=
  str (createNode "nor" :: setProps textType) text

/-- The `Left`/`Right` grouping loop of `showExp`'s `EDelimited` case:
accumulates `Right` values into the current group, closing the group at each
`Left` separator; empty groups are not emitted. -/
def splitGroupsAux : List InEDelimited → List Exp → List (List Exp)
  | [], cur => if cur.isEmpty then [] else [cur]
  | .Left _ :: rest, cur =>
    if cur.isEmpty then splitGroupsAux rest [] else cur :: splitGroupsAux rest []
  | .Right v :: rest, cur => splitGroupsAux rest (cur ++ [v])

def splitGroups (content : List InEDelimited) : List (List Exp) :=
  splitGroupsAux content []

/-- The separator values (`content.filter(Left).map(value)`) of `EDelimited`. -/
def delimLeftValues (content : List InEDelimited) : List String :=
  content.filterMap (fun item => match item with | .Left v => some v | .Right _ => none)

/-! ## Termination measure for the writer -/

mutual
/-- Structural size of an expression, used as the writer's termination
measure. `EUnderover` weighs 3 because `showExp` rewrites it into a nested
`EOver`/`EUnder` pair; `EFraction`, `ECancel` and `EArray` weigh 2 because
`showExp` forwards them to the mutually recursive helpers. -/
def expSize : Exp → Nat
  | ENumber _ => 1
  | EGrouped xs => 1 + expListSize xs
  | EDelimited _ _ c => 1 + contentSize c
  | EIdentifier _ => 1
  | EMathOperator _ => 1
  | ESymbol _ _ => 1
  | ESpace _ => 1
  | ESub b s => 1 + expSize b + expSize s
  | ESuper b s => 1 + expSize b + expSize s
  | ESubsup b s p => 1 + expSize b + expSize s + expSize p
  | EOver _ b o => 1 + expSize b + expSize o
  | EUnder _ b u => 1 + expSize b + expSize u
  | EUnderover _ b u o => 3 + expSize b + expSize u + expSize o
  | EPhantom v => 1 + expSize v
  | EBoxed v => 1 + expSize v
  | ECancel _ v => 2 + expSize v
  | EFraction _ n d => 2 + expSize n + expSize d
  | ERoot i b => 1 + expSize i + expSize b
  | ESqrt v => 1 + expSize v
  | EScaled _ v => 1 + expSize v
  | EArray _ lines => 2 + linesSize lines
  | EText _ _ => 1
  | EStyled _ xs => 1 + expListSize xs

def expListSize : List Exp → Nat
  | [] => 0
  | x :: xs => 1 + expSize x + expListSize xs

def contentSize : List InEDelimited → Nat
  | [] => 0
  | .Left _ :: rest => 1 + contentSize rest
  | .Right v :: rest => 1 + expSize v + contentSize rest

def rowSize : List (List Exp) → Nat
  | [] => 0
  | cell :: rest => 1 + expListSize cell + rowSize rest

def linesSize : List (List (List Exp)) → Nat
  | [] => 0
  | row :: rest => 1 + rowSize row + linesSize rest
end

theorem expSize_pos (e : Exp) : 1 ≤ expSize e := by
  cases e <;> simp [expSize] <;> omega

theorem expSize_lt_expListSize {e : Exp} {es : List Exp} (h : e ∈ es) :
    expSize e < expListSize es := by
  induction es with
  | nil => cases h
  | cons x xs ih =>
    rcases List.mem_cons.mp h with rfl | h'
    · simp [expListSize]; omega
    · have := ih h'
      simp [expListSize]; omega

theorem expListSize_lt_rowSize {cell : List Exp} {row : List (List Exp)}
    (h : cell ∈ row) : expListSize cell < rowSize row := by
  induction row with
  | nil => cases h
  | cons x xs ih =>
    rcases List.mem_cons.mp h with rfl | h'
    · simp [rowSize]; omega
    · have := ih h'
      simp [rowSize]; omega

theorem rowSize_lt_linesSize {row : List (List Exp)}
    {lines : List (List (List Exp))} (h : row ∈ lines) :
    rowSize row < linesSize lines := by
  induction lines with
  | nil => cases h
  | cons x xs ih =>
    rcases List.mem_cons.mp h with rfl | h'
    · simp [linesSize]; omega
    · have := ih h'
      simp [linesSize]; omega

theorem expListSize_append (a b : List Exp) :
    expListSize (a ++ b) = expListSize a + expListSize b := by
  induction a with
  | nil => simp [expListSize]
  | cons x xs ih => simp [expListSize, ih]; omega

theorem splitGroupsAux_size :
    ∀ (content : List InEDelimited) (cur g : List Exp),
      g ∈ splitGroupsAux content cur →
        expListSize g ≤ expListSize cur + contentSize content := by
  intro content
  induction content with
  | nil =>
    intro cur g h
    by_cases hc : cur.isEmpty <;> simp [splitGroupsAux, hc] at h
    subst h
    simp [contentSize]
  | cons item rest ih =>
    intro cur g h
    match item with
    | .Left v =>
      by_cases hc : cur.isEmpty <;> simp [splitGroupsAux, hc] at h
      · have := ih [] g h
        simp [expListSize] at this
        simp [contentSize]; omega
      · rcases h with rfl | h'
        · simp [contentSize]; try omega
        · have := ih [] g h'
          simp [expListSize] at this
          simp [contentSize]; omega
    | .Right v =>
      simp [splitGroupsAux] at h
      have := ih (cur ++ [v]) g h
      rw [expListSize_append] at this
      simp [expListSize, contentSize] at this ⊢
      omega

theorem splitGroups_size {content : List InEDelimited} {g : List Exp}
    (h : g ∈ splitGroups content) : expListSize g ≤ contentSize content := by
  have := splitGroupsAux_size content [] g h
  simpa [expListSize] using this

theorem naryGroupCase_size {first : Exp} {l c : String} {sub sup : Exp}
    (h : naryGroupCase first = some (l, c, sub, sup)) :
    expSize sub + expSize sup + 1 ≤ expSize first := by
  match first with
  | EUnderover cv b u o =>
    simp [naryGroupCase] at h
    by_cases hn : isNary b <;> simp [hn] at h
    obtain ⟨_, _, rfl, rfl⟩ := h
    have := expSize_pos b
    simp [expSize]; omega
  | ESubsup b s p =>
    simp [naryGroupCase] at h
    by_cases hn : isNary b <;> simp [hn] at h
    obtain ⟨_, _, rfl, rfl⟩ := h
    have := expSize_pos b
    simp [expSize]; omega
  | ENumber v => simp [naryGroupCase] at h
  | EGrouped v => simp [naryGroupCase] at h
  | EDelimited o cl ct => simp [naryGroupCase] at h
  | EIdentifier v => simp [naryGroupCase] at h
  | EMathOperator v => simp [naryGroupCase] at h
  | ESymbol t v => simp [naryGroupCase] at h
  | ESpace w => simp [naryGroupCase] at h
  | ESub b s => simp [naryGroupCase] at h
  | ESuper b s => simp [naryGroupCase] at h
  | EOver cv b o => simp [naryGroupCase] at h
  | EUnder cv b u => simp [naryGroupCase] at h
  | EPhantom v => simp [naryGroupCase] at h
  | EBoxed v => simp [naryGroupCase] at h
  | ECancel s v => simp [naryGroupCase] at h
  | EFraction f n d => simp [naryGroupCase] at h
  | ERoot i b => simp [naryGroupCase] at h
  | ESqrt v => simp [naryGroupCase] at h
  | EScaled s v => simp [naryGroupCase] at h
  | EArray a ls => simp [naryGroupCase] at h
  | EText t v => simp [naryGroupCase] at h
  | EStyled t v => simp [naryGroupCase] at h

/-! ## OMML writer: node emission (`showExp` and helpers) -/

mutual
/-- `showExp` from src/types.ts: recursive node emission per `Exp` variant. -/
def showExp (props : List XMLNode) (exp : Exp) : List XMLNode :=
  match exp with
  | ENumber v => [str props v]
  | EGrouped value =>
    match value with
    | [] => [str props "​"]
    | [first, second] =>
      (match hnc : naryGroupCase first with
       | some (limLoc, chr, sub, sup) => [makeNary props limLoc chr sub sup second]
       | none => showExps props [first, second])
    | other => showExps props other
  | EDelimited o c content =>
    let separators := delimLeftValues content
    let sepChr := separators.headD ""
    [createNode "d" []
      (.node (createNode "dPr" []
        [.node (createNodeWithVal "begChr" o),
         .node (createNodeWithVal "sepChr" sepChr),
         .node (createNodeWithVal "endChr" c),
         .node (createNode "grow")]) ::
       (splitGroups content).attach.map
         (fun ⟨g, hg⟩ => .node (createNode "e" [] (nodesToChildren (showExps props g)))))]
  | EIdentifier v =>
    if v = "" then [str props "​"]
    else if isUppercaseGreek v ∧ props.length = 0 then
      [str [createNodeWithVal "sty" "p"] v]
    else [str props v]
  | EMathOperator v => [str (createNodeWithVal "sty" "p" :: props) v]
  | ESymbol st v =>
    if isSymbolOrPunctValue v then [str (defaultTo .TextNormal props) v]
    else if st = .Op ∨ st = .Bin ∨ st = .Rel then
      [createNode "box" []
        [.node (createNode "boxPr" [] [.node (createNodeWithVal "opEmu" "on")]),
         .node (createNode "e" [] [.node (str (defaultTo .TextNormal props) v)])]]
    else [str (defaultTo .TextNormal props) v]
  | ESpace width => [str props (spaceWidthChar width)]
  | EUnder cv base under =>
    match under with
    | ESymbol .TUnder uv =>
      if isBarChar uv then
        [createNode "bar" []
          [.node (createNode "barPr" [] [.node (createNodeWithVal "pos" "bot")]),
           .node (createNode "e" [] (nodesToChildren (showExp props base)))]]
      else
        [createNode "groupChr" []
          [.node (createNode "groupChrPr" []
            [.node (createNodeWithVal "chr" uv),
             .node (createNodeWithVal "pos" "bot"),
             .node (createNodeWithVal "vertJc" "top")]),
           .node (createNode "e" [] (nodesToChildren (showExp props base)))]]
    | u2 =>
      [createNode "limLow" []
        [.node (createNode "e" [] (nodesToChildren (showExp props base))),
         .node (createNode "lim" [] (nodesToChildren (showExp props u2)))]]
  | EOver cv base over =>
    match over with
    | ESymbol .TOver ov =>
      if isBarChar ov then
        [createNode "bar" []
          [.node (createNode "barPr" [] [.node (createNodeWithVal "pos" "top")]),
           .node (createNode "e" [] (nodesToChildren (showExp props base)))]]
      else
        [createNode "groupChr" []
          [.node (createNode "groupChrPr" []
            [.node (createNodeWithVal "chr" ov),
             .node (createNodeWithVal "pos" "top"),
             .node (createNodeWithVal "vertJc" "bot")]),
           .node (createNode "e" [] (nodesToChildren (showExp props base)))]]
    | ESymbol .Accent ov =>
      [createNode "acc" []
        [.node (createNode "accPr" [] [.node (createNodeWithVal "chr" ov)]),
         .node (createNode "e" [] (nodesToChildren (showExp props base)))]]
    | o2 =>
      [createNode "limUpp" []
        [.node (createNode "e" [] (nodesToChildren (showExp props base))),
         .node (createNode "lim" [] (nodesToChildren (showExp props o2)))]]
  | EUnderover cv base under over =>
    showExp props (EOver cv (EUnder cv base under) over)
  | ESub b s =>
    [createNode "sSub" []
      [.node (createNode "e" [] (nodesToChildren (showExp props b))),
       .node (createNode "sub" [] (nodesToChildren (showExp props s)))]]
  | ESuper b s =>
    [createNode "sSup" []
      [.node (createNode "e" [] (nodesToChildren (showExp props b))),
       .node (createNode "sup" [] (nodesToChildren (showExp props s)))]]
  | ESubsup b s p =>
    [createNode "sSubSup" []
      [.node (createNode "e" [] (nodesToChildren (showExp props b))),
       .node (createNode "sub" [] (nodesToChildren (showExp props s))),
       .node (createNode "sup" [] (nodesToChildren (showExp props p)))]]
  | ESqrt v =>
    [createNode "rad" []
      [.node (createNode "radPr" [] [.node (createNodeWithVal "degHide" "on")]),
       .node (createNode "deg"),
       .node (createNode "e" [] (nodesToChildren (showExp props v)))]]
  | ERoot i b =>
    [createNode "rad" []
      [.node (createNode "deg" [] (nodesToChildren (showExp props i))),
       .node (createNode "e" [] (nodesToChildren (showExp props b)))]]
  | EFraction ft n d => [showFraction props ft n d]
  | EPhantom v =>
    [createNode "phant" []
      [.node (createNode "phantPr" [] [.node (createNodeWithVal "show" "off")]),
       .node (createNode "e" [] (nodesToChildren (showExp props v)))]]
  | EBoxed v =>
    [createNode "borderBox" []
      [.node (createNode "e" [] (nodesToChildren (showExp props v)))]]
  | ECancel st v => [makeCancel props st v]
  | EScaled _ v => showExp props v
  | EArray aligns lines => [makeArray props aligns lines]
  | EText tt v => [makeText tt v]
  | EStyled tt value => showExps (setProps tt) value
termination_by expSize exp
decreasing_by
  all_goals simp_wf
  all_goals
    first
      | omega
      | (simp only [expSize, expListSize]; omega)
      | (have h1 := naryGroupCase_size hnc
         simp only [expSize, expListSize] at h1 ⊢
         omega)
      | (have h1 := splitGroups_size hg
         simp only [expSize] at h1 ⊢
         omega)

/-- The `flatMap(e => showExp(props, e))` pattern of the source. -/
def showExps (props : List XMLNode) (es : List Exp) : List XMLNode :=
  match es with
  | [] => []
  | e :: rest => showExp props e ++ showExps props rest
termination_by expListSize es
decreasing_by
  all_goals simp_wf
  all_goals
    first
      | omega
      | (simp only [expSize, expListSize]; omega)
      | (have h1 := naryGroupCase_size hnc
         simp only [expSize, expListSize] at h1 ⊢
         omega)
      | (have h1 := splitGroups_size hg
         simp only [expSize] at h1 ⊢
         omega)

/-- `showFraction` from src/types.ts. -/
def showFraction (props : List XMLNode) (fractionType : FractionType)
    (numerator denominator : Exp) : XMLNode :=
  let numChildren := showExp props numerator
  let denChildren := showExp props denominator
  let typeVal :=
    if fractionType = .InlineFrac then "lin"
    else if fractionType = .NoLineFrac then "noBar"
    else "bar"
  createNode "f" []
    [.node (createNode "fPr" [] [.node (createNodeWithVal "type" typeVal)]),
     .node (createNode "num" [] (nodesToChildren numChildren)),
     .node (createNode "den" [] (nodesToChildren denChildren))]
termination_by expSize numerator + expSize denominator + 1
decreasing_by
  all_goals simp_wf
  all_goals
    first
      | omega
      | (simp only [expSize, expListSize]; omega)
      | (have h1 := naryGroupCase_size hnc
         simp only [expSize, expListSize] at h1 ⊢
         omega)
      | (have h1 := splitGroups_size hg
         simp only [expSize] at h1 ⊢
         omega)

/-- `makeArray` from src/types.ts. -/
def makeArray (props : List XMLNode) (alignments : List Alignment)
    (lines : List (List (List Exp))) : XMLNode :=
  let mProps := createNode "mPr" []
    [.node (createNodeWithVal "baseJc" "center"),
     .node (createNodeWithVal "plcHide" "on"),
     .node (createNode "mcs" [] (alignments.map (fun align =>
       let alignStr :=
         if align = .AlignLeft then "left"
         else if align = .AlignRight then "right"
         else "center"
       XMLChild.node (createNode "mc" []
         [.node (createNode "mcPr" []
           [.node (createNodeWithVal "mcJc" alignStr),
            .node (createNodeWithVal "count" "1")])]))))]
  let rows := lines.attach.map (fun ⟨line, hline⟩ =>
    XMLChild.node (createNode "mr" [] (line.attach.map (fun ⟨cell, hcell⟩ =>
      XMLChild.node (createNode "e" [] (nodesToChildren (showExps props cell)))))))
  createNode "m" [] (.node mProps :: rows)
termination_by linesSize lines + 1
decreasing_by
  all_goals simp_wf
  all_goals
    (have h1 := expListSize_lt_rowSize hcell
     have h2 := rowSize_lt_linesSize hline
     omega)

/-- `makeNary` from src/types.ts. -/
def makeNary (props : List XMLNode) (limLoc symbol : String)
    (sub sup base : Exp) : XMLNode :=
  let subHide := match sub with | EGrouped [] => "on" | _ => "off"
  let supHide := match sup with | EGrouped [] => "on" | _ => "off"
  createNode "nary" []
    [.node (createNode "naryPr" []
      [.node (createNodeWithVal "chr" symbol),
       .node (createNodeWithVal "limLoc" limLoc),
       .node (createNodeWithVal "subHide" subHide),
       .node (createNodeWithVal "supHide" supHide)]),
     .node (createNode "sub" [] (nodesToChildren (showExp props sub))),
     .node (createNode "sup" [] (nodesToChildren (showExp props sup))),
     .node (createNode "e" [] (nodesToChildren (showExp props base)))]
termination_by expSize sub + expSize sup + expSize base + 1
decreasing_by
  all_goals simp_wf
  all_goals
    first
      | omega
      | (simp only [expSize, expListSize]; omega)
      | (have h1 := naryGroupCase_size hnc
         simp only [expSize, expListSize] at h1 ⊢
         omega)
      | (have h1 := splitGroups_size hg
         simp only [expSize] at h1 ⊢
         omega)

/-- `makeCancel` from src/types.ts. -/
def makeCancel (props : List XMLNode) (strokeType : StrokeType)
    (exp : Exp) : XMLNode :=
  let strokes :=
    (if strokeType = .ForwardSlash ∨ strokeType = .XSlash then
      [createNodeWithVal "strikeBLTR" "1"] else []) ++
    (if strokeType = .BackSlash ∨ strokeType = .XSlash then
      [createNodeWithVal "strikeTLBR" "1"] else [])
  createNode "borderBox" []
    [.node (createNode "borderBoxPr" [] (nodesToChildren
      ([createNodeWithVal "hideTop" "1",
        createNodeWithVal "hideBot" "1",
        createNodeWithVal "hideLeft" "1",
        createNodeWithVal "hideRight" "1"] ++ strokes))),
     .node (createNode "e" [] (nodesToChildren (showExp props exp)))]
termination_by expSize exp + 1
decreasing_by
  all_goals simp_wf
  all_goals
    first
      | omega
      | (simp only [expSize, expListSize]; omega)
      | (have h1 := naryGroupCase_size hnc
         simp only [expSize, expListSize] at h1 ⊢
         omega)
      | (have h1 := splitGroups_size hg
         simp only [expSize] at h1 ⊢
         omega)
end

/-! ## OMML writer: n-ary pre-pass and entry point -/

/-- The six wrapper patterns of `handleDownup` (src/types.ts): a limit
attachment around an n-ary base yields the fully-qualified limit form that the
merged group will carry. -/
def naryMergeHead (exp : Exp) : Option Exp :=
  match exp with
  | EOver cv b o =>
    if isNary b then some (EUnderover cv b (EGrouped []) o) else none
  | EUnder cv b u =>
    if isNary b then some (EUnderover cv b u (EGrouped [])) else none
  | EUnderover _ b _ _ => if isNary b then some exp else none
  | ESub b s => if isNary b then some (ESubsup b s (EGrouped [])) else none
  | ESuper b s => if isNary b then some (ESubsup b (EGrouped []) s) else none
  | ESubsup b _ _ => if isNary b then some exp else none
  | _ => none

/-- The loop of `handleDownup`: on a merge the following element (or an empty
group when none follows) is consumed into the merged group and skipped. -/
def handleDownupGo : List Exp → List Exp
  | [] => []
  | exp :: rest =>
    match naryMergeHead exp with
    | some merged =>
      match rest with
      | [] => [EGrouped [merged, EGrouped []]]
      | next :: rest2 => EGrouped [merged, next] :: handleDownupGo rest2
    | none => exp :: handleDownupGo rest

/-- `handleDownup` from src/types.ts (the display-type argument is accepted
and unused, as in the source). -/
def handleDownup (_dt : DisplayType) (exps : List Exp) : List Exp :=
  handleDownupGo exps

/-- `writeOMML` from src/types.ts: n-ary pre-pass, node emission, wrapping in
the display container, serialization. -/
def writeOMML (dt : DisplayType) (exps : List Exp) : String :=
  let processedExps := handleDownup dt exps
  let nodes := processedExps.flatMap (fun e => showExp [] e)
  let root : XMLNode :=
    if dt = .DisplayBlock then
      createNode "oMathPara" []
        [.node (createNode "oMathParaPr" [] [.node (createNodeWithVal "jc" "center")]),
         .node (createNode "oMath" [] (nodesToChildren nodes))]
    else
      createNode "oMath" [] (nodesToChildren nodes)
  nodeToString (.node root) 0

/-- C4: the writer is total — for every display mode and every `Exp` sequence
(every variant, every attribute combination, including empty children lists)
`writeOMML` produces a markup string. The substance is that `showExp` and its
helpers are accepted as total functions (well-founded recursion on `expSize`),
covering in particular the `EUnderover` case that recurses on a freshly built
`EOver`/`EUnder` nest rather than on a subterm. -/
theorem claim_C4_writeOMML_total (dt : DisplayType) (exps : List Exp) :
    ∃ s : String, writeOMML dt exps = s :=
  ⟨writeOMML dt exps, rfl⟩

/-! ## TeX reader: cursor state and scanning primitives -/

/-- The parser's mutable cursor (`this.input`, `this.pos` of class `Parser`). -/
structure St where
  input : List Char
  pos : Nat
deriving DecidableEq

/-- `peek` from src/types.ts. -/
def peek (st : St) : Option Char :=
  st.input[st.pos]?

/-- `advance` from src/types.ts (default count 1). -/
def advance (st : St) (count : Nat := 1) : St :=
  { st with pos := st.pos + count }

/-- `consume` from src/types.ts. -/
def consume (st : St) : Option Char × St :=
  match peek st with
  | none => (none, st)
  | some c => (some c, advance st)

/-- ASCII letter test (`/[a-zA-Z]/`). -/
def isAsciiLetter (c : Char) : Bool :=
  ('a' ≤ c && c ≤ 'z') || ('A' ≤ c && c ≤ 'Z')

/-- ASCII digit test (`/\d/`). -/
def isDigitChar (c : Char) : Bool :=
  '0' ≤ c && c ≤ '9'

/-- `skipWhitespace` from src/types.ts. -/
def skipWhitespace (st : St) : St :=
  advance st ((st.input.drop st.pos).takeWhile isJsSpace).length

/-- The comment-skipping part of `skipIgnorable`: skip to the newline and
consume it when present. -/
def skipComment (st : St) : St :=
  let st1 := advance st ((st.input.drop st.pos).takeWhile (fun c => c ≠ '\n')).length
  if peek st1 = some '\n' then advance st1 else st1

def skipIgnorableGo : Nat → St → St
  | 0, st => st
  | n + 1, st =>
    let st1 := skipWhitespace st
    if peek st1 = some '%' then skipIgnorableGo n (skipComment st1)
    else st1

/-- `skipIgnorable` from src/types.ts: whitespace and `%` line comments.
The internal bound exceeds the input length, so it never cuts the loop
short: each continuing iteration consumes at least one character. -/
def skipIgnorable (st : St) : St :=
  skipIgnorableGo (st.input.length + 1) st

/-- `match` from src/types.ts (named `matchStr`; `match` is a Lean keyword):
compares `substr(pos, len)` and advances on success. -/
def matchStr (s : String) (st : St) : Bool × St :=
  if (st.input.drop st.pos).take s.length = s.data then (true, advance st s.length)
  else (false, st)

/-- `readControlSequence` from src/types.ts. -/
def readControlSequence (st : St) : Option String × St :=
  if peek st ≠ some '\\' then (none, st)
  else
    let st1 := advance st
    let start := st1.pos
    match peek st1 with
    | some c =>
      if ¬ isAsciiLetter c then (some ("\\" ++ String.mk [c]), advance st1)
      else
        let k := ((st1.input.drop st1.pos).takeWhile isAsciiLetter).length
        (some ("\\" ++ String.mk ((st1.input.drop start).take k)), advance st1 k)
    | none => (none, st1)

/-- `ParseError` from src/types.ts. The source instantiates it at exactly two
sites, both unbalanced-group conditions: `readBraces` throws with message
"Expected closing brace" and `readBrackets` with "Expected closing bracket",
each carrying the cursor position; the embedding's error type therefore has
exactly these two constructors. -/
inductive ParseError where
  | expectedClosingBrace (position : Nat)
  | expectedClosingBracket (position : Nat)
deriving DecidableEq

/-- `readBraces` from src/types.ts: runs the callback between the braces;
a missing `{` yields `none` without consuming, a missing `}` throws. -/
def readBraces {α : Type} (p : St → Except ParseError (α × St)) (st0 : St) :
    Except ParseError (Option α × St) :=
  let st := skipIgnorable st0
  if peek st ≠ some '{' then .ok (none, st)
  else
    let st1 := skipIgnorable (advance st)
    match p st1 with
    | .error e => .error e
    | .ok (a, st2) =>
      let st3 := skipIgnorable st2
      if peek st3 ≠ some '}' then .error (.expectedClosingBrace st3.pos)
      else .ok (some a, skipIgnorable (advance st3))

/-- `readBrackets` from src/types.ts. -/
def readBrackets {α : Type} (p : St → Except ParseError (α × St)) (st0 : St) :
    Except ParseError (Option α × St) :=
  let st := skipIgnorable st0
  if peek st ≠ some '[' then .ok (none, st)
  else
    let st1 := skipIgnorable (advance st)
    match p st1 with
    | .error e => .error e
    | .ok (a, st2) =>
      let st3 := skipIgnorable st2
      if peek st3 ≠ some ']' then .error (.expectedClosingBracket st3.pos)
      else .ok (some a, skipIgnorable (advance st3))

/-! ## Symbol tables (external collaborator, modelled from the spec) -/

/-- Modelled from the spec: the generic symbol sub-table of the Symbol Table
collaborator (src/types.ts imports `symbols` from `./commands`, which is not
under src/; spec §4.1 describes it as a read-only map from backslash commands
to prebuilt Exp leaves, and §4.3 fixes the n-ary glyphs — integral variants,
product, coproduct, sum). Only entries relevant to the claims are listed. -/
def symbols : List (String × Exp) :=
  [("\\sum", ESymbol .Op "∑"),
   ("\\int", ESymbol .Op "∫"),
   ("\\prod", ESymbol .Op "∏"),
   ("\\pm", ESymbol .Bin "±"),
   ("\\alpha", EIdentifier "α"),
   ("\\infty", EIdentifier "∞")]

/-- Modelled from the spec: the single-character operator sub-table (including
multi-prime sequences), spec §4.1/§4.2. `&`, `{`, `}` have no entry: they are
structure characters, not operator tokens. -/
def operators : List (String × Exp) :=
  [("+", ESymbol .Bin "+"),
   ("-", ESymbol .Bin "−"),
   ("=", ESymbol .Rel "="),
   (",", ESymbol .Pun ","),
   ("'", ESymbol .Ord "′"),
   ("''", ESymbol .Ord "″"),
   ("'''", ESymbol .Ord "‴"),
   ("''''", ESymbol .Ord "⁗")]

/-- Modelled from the spec: the delimiter/enclosure sub-table, spec §4.1. -/
def enclosures : List (String × Exp) :=
  [("(", ESymbol .Open "("),
   (")", ESymbol .Close ")"),
   ("[", ESymbol .Open "["),
   ("]", ESymbol .Close "]"),
   ("|", ESymbol .Ord "|"),
   ("\\\x7b", ESymbol .Open "\x7b"),
   ("\\\x7d", ESymbol .Close "\x7d"),
   ("\\langle", ESymbol .Open "⟨"),
   ("\\rangle", ESymbol .Close "⟩")]

/-- Modelled from the spec: the style-command sub-table (each command maps a
parsed sub-sequence to a styled run), spec §4.1. -/
def styleOps : List (String × (List Exp → Exp)) :=
  [("\\mathbf", fun es => EStyled .TextBold es),
   ("\\mathit", fun es => EStyled .TextItalic es),
   ("\\mathrm", fun es => EStyled .TextNormal es),
   ("\\mathbb", fun es => EStyled .TextDoubleStruck es),
   ("\\mathcal", fun es => EStyled .TextScript es),
   ("\\mathtt", fun es => EStyled .TextMonospace es),
   ("\\mathfrak", fun es => EStyled .TextFraktur es),
   ("\\mathsf", fun es => EStyled .TextSansSerif es)]

/-- Modelled from the spec: the text-command sub-table (each command maps the
raw braced text to a text run), spec §4.1. -/
def textOps : List (String × (String → Exp)) :=
  [("\\text", fun s => EText .TextNormal s),
   ("\\textbf", fun s => EText .TextBold s),
   ("\\textit", fun s => EText .TextItalic s),
   ("\\texttt", fun s => EText .TextMonospace s),
   ("\\textsf", fun s => EText .TextSansSerif s),
   ("\\mbox", fun s => EText .TextNormal s)]

/-! ## TeX reader: non-recursive sub-parsers -/

/-- `parseNumber` from src/types.ts: digits with an optional decimal point;
a lone dot is backtracked and is not a number. -/
def parseNumber (st0 : St) : Option Exp × St :=
  let st := skipIgnorable st0
  let start := st.pos
  let d1 := ((st.input.drop st.pos).takeWhile isDigitChar).length
  let hasDigits := 0 < d1
  let st1 := advance st d1
  let st2 :=
    if peek st1 = some '.' then
      let dotPos := st1.pos
      let stDot := advance st1
      let d2 := ((stDot.input.drop stDot.pos).takeWhile isDigitChar).length
      if 0 < d2 then advance stDot d2
      else if ¬ hasDigits then { stDot with pos := dotPos }
      else stDot
    else st1
  if st2.pos = start then (none, st2)
  else
    (some (ENumber (String.mk ((st2.input.drop start).take (st2.pos - start)))),
     skipIgnorable st2)

/-- `parseVariable` from src/types.ts: a single ASCII letter. -/
def parseVariable (st0 : St) : Option Exp × St :=
  let st := skipIgnorable st0
  match peek st with
  | some c =>
    if isAsciiLetter c then
      (some (EIdentifier (String.mk [c])), skipIgnorable (advance st))
    else (none, st)
  | none => (none, st)

/-- `parseOperator` from src/types.ts: multi-prime sequences first (consumed
even when the table has no entry, as in the source), then single-character
operators (consumed only when present in the table). -/
def parseOperator (st0 : St) : Option Exp × St :=
  let st := skipIgnorable st0
  if (st.input.drop st.pos).take 4 = ['\'', '\'', '\'', '\''] then
    (operators.lookup "''''", skipIgnorable (advance st 4))
  else if (st.input.drop st.pos).take 3 = ['\'', '\'', '\''] then
    (operators.lookup "'''", skipIgnorable (advance st 3))
  else if (st.input.drop st.pos).take 2 = ['\'', '\''] then
    (operators.lookup "''", skipIgnorable (advance st 2))
  else if (st.input.drop st.pos).take 1 = ['\''] then
    (operators.lookup "'", skipIgnorable (advance st 1))
  else
    match peek st with
    | some c =>
      if (operators.lookup (String.mk [c])).isSome then
        (operators.lookup (String.mk [c]), skipIgnorable (advance st))
      else (none, st)
    | none => (none, st)

/-- `parseEnclosure` from src/types.ts. -/
def parseEnclosure (st : St) : Option Exp × St :=
  match peek st with
  | some c =>
    if ['(', ')', '[', ']', '|'].contains c then
      if (enclosures.lookup (String.mk [c])).isSome then
        (enclosures.lookup (String.mk [c]), skipIgnorable (advance st))
      else (none, st)
    else (none, st)
  | none => (none, st)

/-- The trailing single-character check of `parseDelimiter`. -/
def parseDelimiterChar (st : St) : Option String × St :=
  match peek st with
  | some c =>
    if ['(', ')', '[', ']', '|'].contains c then
      (some (String.mk [c]), skipIgnorable (advance st))
    else (none, st)
  | none => (none, st)

/-- `parseDelimiter` from src/types.ts: a period is the empty delimiter; a
command delimiter found in `enclosures` yields its symbol value (the control
sequence stays consumed even when the table misses, as in the source); else a
single delimiter character. -/
def parseDelimiter (st0 : St) : Option String × St :=
  let st := skipIgnorable st0
  if peek st = some '.' then (some "", skipIgnorable (advance st))
  else
    let (cmd, st1) := readControlSequence st
    match cmd with
    | some c =>
      match enclosures.lookup c with
      | some enc =>
        let st2 := skipIgnorable st1
        match enc with
        | ESymbol _ v => (some v, st2)
        | _ => parseDelimiterChar st2
      | none => parseDelimiterChar st1
    | none => parseDelimiterChar st1

/-- The raw brace-content scan used by `parseTextOp`, `parseEnvironment` and
`parseHSpace` (`while peek !== closing brace: advance`, returning the
substring). -/
def scanToCloseBrace (st : St) : Except ParseError (String × St) :=
  let k := ((st.input.drop st.pos).takeWhile (fun c => c ≠ '\x7d')).length
  .ok (String.mk ((st.input.drop st.pos).take k), advance st k)

/-- `parseTextOp` from src/types.ts. -/
def parseTextOp (cmd : String) (st : St) : Except ParseError (Option Exp × St) :=
  match textOps.lookup cmd with
  | none => .ok (none, st)
  | some op =>
    match readBraces scanToCloseBrace st with
    | .error e => .error e
    | .ok (none, st1) => .ok (none, st1)
    | .ok (some text, st1) => .ok (some (op text), st1)

/-- `parseHSpace` from src/types.ts: the dimension text is ignored beyond
truthiness and a fixed 0.33 width is produced. -/
def parseHSpace (st : St) : Except ParseError (Option Exp × St) :=
  match readBraces scanToCloseBrace st with
  | .error e => .error e
  | .ok (none, st1) => .ok (none, st1)
  | .ok (some w, st1) =>
    if w ≠ "" then .ok (some (ESpace 0.33), st1) else .ok (none, st1)

mutual
/-- `expToText` from src/types.ts. -/
def expToText : Exp → String
  | EIdentifier v => v
  | ENumber v => v
  | EMathOperator v => v
  | EText _ v => v
  | ESymbol _ v => v
  | EGrouped es => expToTextList es
  | _ => ""

/-- The `exp.value.map(expToText).join('')` part of `expToText`. -/
def expToTextList : List Exp → String
  | [] => ""
  | e :: rest => expToText e ++ expToTextList rest
end

/-- JavaScript `String.prototype.includes` (substring containment). -/
def containsSub (s sub : String) : Bool :=
  (List.range (s.length + 1)).any (fun i => (s.data.drop i).take sub.length == sub.data)

/-! ## TeX reader: mutually recursive parsing procedures

The source's procedures recurse through each other and terminate by consuming
input; the embedding threads a fuel parameter that every mutual call
decrements. Fuel exhaustion yields the "no expression here" result; `readTeX`
supplies fuel far exceeding what any of the concrete inputs below consume. -/

mutual
/-- The `while` loop of `parse` (src/types.ts): parse expressions until the
input ends or no expression matches. -/
def parseLoop : Nat → St → List Exp → Except ParseError (List Exp × St)
  | 0, st, acc => .ok (acc, st)
  | fuel + 1, st, acc =>
    match peek st with
    | none => .ok (acc, st)
    | some _ =>
      match parseExpr fuel st with
      | .error e => .error e
      | .ok (none, st1) => .ok (acc, st1)
      | .ok (some e, st1) => parseLoop fuel (skipIgnorable st1) (acc ++ [e])

/-- `parseExpr` from src/types.ts: a base expression, then an optional
subscript/superscript combination. -/
def parseExpr : Nat → St → Except ParseError (Option Exp × St)
  | 0, st => .ok (none, st)
  | fuel + 1, st0 =>
    let st := skipIgnorable st0
    match parseExpr1 fuel st with
    | .error e => .error e
    | .ok (none, st1) => .ok (none, st1)
    | .ok (some base, st1) =>
      let st2 := skipIgnorable st1
      match parseSubSup fuel base st2 with
      | .error e => .error e
      | .ok (some r, st3) => .ok (some r, st3)
      | .ok (none, st3) => .ok (some base, st3)

/-- `parseExpr1` from src/types.ts: ordered choice over the basic parsers,
threading the cursor (the source's `??` chain over mutating methods). -/
def parseExpr1 : Nat → St → Except ParseError (Option Exp × St)
  | 0, st => .ok (none, st)
  | fuel + 1, st0 =>
    let st := skipIgnorable st0
    match parseInBraces fuel st with
    | .error e => .error e
    | .ok (some e, st1) => .ok (some e, st1)
    | .ok (none, st1) =>
      match parseNumber st1 with
      | (some e, st2) => .ok (some e, st2)
      | (none, st2) =>
        match parseVariable st2 with
        | (some e, st3) => .ok (some e, st3)
        | (none, st3) =>
          match parseCommand fuel st3 with
          | .error e => .error e
          | .ok (some e, st4) => .ok (some e, st4)
          | .ok (none, st4) =>
            match parseOperator st4 with
            | (some e, st5) => .ok (some e, st5)
            | (none, st5) =>
              match parseEnclosure st5 with
              | (some e, st6) => .ok (some e, st6)
              | (none, st6) => .ok (none, st6)

/-- The braced-group content loop of `parseInBraces`. -/
def parseInBracesBody : Nat → St → List Exp → Except ParseError (List Exp × St)
  | 0, st, acc => .ok (acc, st)
  | fuel + 1, st, acc =>
    if peek st ≠ some '\x7d' ∧ peek st ≠ none then
      match parseExpr fuel st with
      | .error e => .error e
      | .ok (some e, st1) => parseInBracesBody fuel st1 (acc ++ [e])
      | .ok (none, st1) => .ok (acc, st1)
    else .ok (acc, st)

/-- `parseInBraces` from src/types.ts: a braced group, collapsing a
one-element group to the element itself. -/
def parseInBraces : Nat → St → Except ParseError (Option Exp × St)
  | 0, st => .ok (none, st)
  | fuel + 1, st =>
    match readBraces (fun s => parseInBracesBody fuel s []) st with
    | .error e => .error e
    | .ok (none, st1) => .ok (none, st1)
    | .ok (some exps, st1) =>
      if exps.length = 0 then .ok (some (EGrouped []), st1)
      else if exps.length = 1 then .ok (some (exps.headD (EGrouped [])), st1)
      else .ok (some (EGrouped exps), st1)

/-- `parseCommand` from src/types.ts: symbol-table lookup first (with accent
and over/underbar commands taking an argument), then the fixed command
dispatch; an unrecognized command yields `none` with the command consumed. -/
def parseCommand : Nat → St → Except ParseError (Option Exp × St)
  | 0, st => .ok (none, st)
  | fuel + 1, st0 =>
    match readControlSequence st0 with
    | (none, st1) => .ok (none, st1)
    | (some cmd, st1) =>
      let st := skipIgnorable st1
      match symbols.lookup cmd with
      | some sym =>
        match sym with
        | ESymbol .Accent _ =>
          match parseExpr1 fuel st with
          | .error e => .error e
          | .ok (some arg, st2) => .ok (some (EOver false arg sym), st2)
          | .ok (none, st2) => .ok (some sym, st2)
        | ESymbol .TOver _ =>
          match parseExpr1 fuel st with
          | .error e => .error e
          | .ok (some arg, st2) => .ok (some (EOver false arg sym), st2)
          | .ok (none, st2) => .ok (some sym, st2)
        | ESymbol .TUnder _ =>
          match parseExpr1 fuel st with
          | .error e => .error e
          | .ok (some arg, st2) => .ok (some (EUnder false arg sym), st2)
          | .ok (none, st2) => .ok (some sym, st2)
        | _ => .ok (some sym, st)
      | none =>
        if cmd = "\\frac" then parseFrac fuel .NormalFrac st
        else if cmd = "\\tfrac" then parseFrac fuel .InlineFrac st
        else if cmd = "\\dfrac" then parseFrac fuel .DisplayFrac st
        else if cmd = "\\sqrt" then parseSqrt fuel st
        else if cmd = "\\overset" then parseOverset fuel st
        else if cmd = "\\underset" then parseUnderset fuel st
        else if cmd = "\\stackrel" then parseStackrel fuel st
        else if cmd = "\\left" then parseDelimited fuel st
        else if cmd = "\\right" then .ok (none, st)
        else if (textOps.lookup cmd).isSome then parseTextOp cmd st
        else if (styleOps.lookup cmd).isSome then parseStyleOp fuel cmd st
        else if cmd = "\\operatorname" then parseOperatorName fuel st
        else if cmd = "\\boxed" then parseBoxed fuel st
        else if cmd = "\\phantom" then parsePhantom fuel st
        else if cmd = "\\cancel" then parseCancel fuel .ForwardSlash st
        else if cmd = "\\bcancel" then parseCancel fuel .BackSlash st
        else if cmd = "\\xcancel" then parseCancel fuel .XSlash st
        else if cmd = "\\begin" then parseEnvironment fuel st
        else if cmd = "\\enspace" then .ok (some (ESpace 0.5), st)
        else if cmd = "\\hspace" then parseHSpace st
        else .ok (none, st)

/-- `parseFrac` from src/types.ts. -/
def parseFrac : Nat → FractionType → St → Except ParseError (Option Exp × St)
  | 0, _, st => .ok (none, st)
  | fuel + 1, fracType, st =>
    match readBraces (fun s => parseGroupedExpr fuel s) st with
    | .error e => .error e
    | .ok (numOpt, st1) =>
      match readBraces (fun s => parseGroupedExpr fuel s) st1 with
      | .error e => .error e
      | .ok (denOpt, st2) =>
        match numOpt, denOpt with
        | some num, some den => .ok (some (EFraction fracType num den), st2)
        | _, _ => .ok (none, st2)

/-- `parseSqrt` from src/types.ts. -/
def parseSqrt : Nat → St → Except ParseError (Option Exp × St)
  | 0, st => .ok (none, st)
  | fuel + 1, st =>
    match readBrackets (fun s => parseGroupedExpr fuel s) st with
    | .error e => .error e
    | .ok (indexOpt, st1) =>
      match readBraces (fun s => parseGroupedExpr fuel s) st1 with
      | .error e => .error e
      | .ok (some b, st2) =>
        match indexOpt with
        | some i => .ok (some (ERoot i b), st2)
        | none => .ok (some (ESqrt b), st2)
      | .ok (none, st2) =>
        match parseExpr1 fuel st2 with
        | .error e => .error e
        | .ok (some b, st3) =>
          match indexOpt with
          | some i => .ok (some (ERoot i b), st3)
          | none => .ok (some (ESqrt b), st3)
        | .ok (none, st3) => .ok (none, st3)

/-- The cell loop of `parseGroupedExpr`: parse expressions until `\x7d`, `]`
or end of input, skipping one unparseable character to avoid looping. -/
def parseGroupedLoop : Nat → St → List Exp → Except ParseError (List Exp × St)
  | 0, st, acc => .ok (acc, st)
  | fuel + 1, st, acc =>
    match peek st with
    | none => .ok (acc, st)
    | some c =>
      if c = '\x7d' ∨ c = ']' then .ok (acc, st)
      else
        match parseExpr fuel st with
        | .error e => .error e
        | .ok (some e, st1) => parseGroupedLoop fuel st1 (acc ++ [e])
        | .ok (none, st1) =>
          match peek st1 with
          | some c1 =>
            if c1 ≠ '\x7d' ∧ c1 ≠ ']' then parseGroupedLoop fuel (advance st1) acc
            else .ok (acc, st1)
          | none => .ok (acc, st1)

/-- `parseGroupedExpr` from src/types.ts: like `parseInBraces`' collapse but
total (an empty group is an empty `EGrouped`). -/
def parseGroupedExpr : Nat → St → Except ParseError (Exp × St)
  | 0, st => .ok (EGrouped [], st)
  | fuel + 1, st =>
    match parseGroupedLoop fuel st [] with
    | .error e => .error e
    | .ok (exps, st1) =>
      if exps.length = 0 then .ok (EGrouped [], st1)
      else if exps.length = 1 then .ok (exps.headD (EGrouped []), st1)
      else .ok (EGrouped exps, st1)

/-- `parseOverset` from src/types.ts. -/
def parseOverset : Nat → St → Except ParseError (Option Exp × St)
  | 0, st => .ok (none, st)
  | fuel + 1, st =>
    match readBraces (fun s => parseExpr1 fuel s) st with
    | .error e => .error e
    | .ok (overOpt, st1) =>
      match readBraces (fun s => parseExpr1 fuel s) st1 with
      | .error e => .error e
      | .ok (baseOpt, st2) =>
        match overOpt, baseOpt with
        | some (some over), some (some base) =>
          .ok (some (EOver false base over), st2)
        | _, _ => .ok (none, st2)

/-- `parseUnderset` from src/types.ts. -/
def parseUnderset : Nat → St → Except ParseError (Option Exp × St)
  | 0, st => .ok (none, st)
  | fuel + 1, st =>
    match readBraces (fun s => parseExpr1 fuel s) st with
    | .error e => .error e
    | .ok (underOpt, st1) =>
      match readBraces (fun s => parseExpr1 fuel s) st1 with
      | .error e => .error e
      | .ok (baseOpt, st2) =>
        match underOpt, baseOpt with
        | some (some under), some (some base) =>
          .ok (some (EUnder false base under), st2)
        | _, _ => .ok (none, st2)

/-- `parseStackrel` from src/types.ts (same as overset). -/
def parseStackrel : Nat → St → Except ParseError (Option Exp × St)
  | 0, st => .ok (none, st)
  | fuel + 1, st => parseOverset fuel st

/-- The content loop of `parseDelimited`: scan expressions until `\right`,
inserting separators at `\middle`. -/
def parseDelimitedLoop : Nat → St → List InEDelimited →
    Except ParseError (List InEDelimited × St)
  | 0, st, acc => .ok (acc, st)
  | fuel + 1, st0, acc =>
    let st := skipIgnorable st0
    let savedPos := st.pos
    let (cmd, stc) := readControlSequence st
    if cmd = some "\\right" then .ok (acc, stc)
    else
      let st1 := { stc with pos := savedPos }
      if cmd = some "\\middle" then
        let (delimOpt, st2) := parseDelimiter st1
        match delimOpt with
        | some d =>
          if d = "" then parseDelimitedLoop fuel st2 acc
          else parseDelimitedLoop fuel st2 (acc ++ [.Left d])
        | none => parseDelimitedLoop fuel st2 acc
      else
        match parseExpr fuel st1 with
        | .error e => .error e
        | .ok (some e, st2) => parseDelimitedLoop fuel st2 (acc ++ [.Right e])
        | .ok (none, st2) => .ok (acc, st2)

/-- `parseDelimited` from src/types.ts (`\left … \right`). -/
def parseDelimited : Nat → St → Except ParseError (Option Exp × St)
  | 0, st => .ok (none, st)
  | fuel + 1, st =>
    match parseDelimiter st with
    | (none, st1) => .ok (none, st1)
    | (some openD, st1) =>
      match parseDelimitedLoop fuel st1 [] with
      | .error e => .error e
      | .ok (content, st2) =>
        let (closeOpt, st3) := parseDelimiter st2
        .ok (some (EDelimited openD (closeOpt.getD "") content), st3)

/-- `parseStyleOp` from src/types.ts (its braced-content closure is the same
loop as `parseInBraces`'s, reused here). -/
def parseStyleOp : Nat → String → St → Except ParseError (Option Exp × St)
  | 0, _, st => .ok (none, st)
  | fuel + 1, cmd, st =>
    match styleOps.lookup cmd with
    | none => .ok (none, st)
    | some op =>
      match readBraces (fun s => parseInBracesBody fuel s []) st with
      | .error e => .error e
      | .ok (some content, st1) =>
        if content.length > 0 then .ok (some (op content), st1)
        else .ok (none, st1)
      | .ok (none, st1) =>
        match parseExpr1 fuel st1 with
        | .error e => .error e
        | .ok (some e, st2) => .ok (some (op [e]), st2)
        | .ok (none, st2) => .ok (none, st2)

/-- The name-collection loop of `parseOperatorName` (uses `parseExpr1`). -/
def parseOperatorNameBody : Nat → St → List Exp → Except ParseError (List Exp × St)
  | 0, st, acc => .ok (acc, st)
  | fuel + 1, st, acc =>
    if peek st ≠ some '\x7d' ∧ peek st ≠ none then
      match parseExpr1 fuel st with
      | .error e => .error e
      | .ok (some e, st1) => parseOperatorNameBody fuel st1 (acc ++ [e])
      | .ok (none, st1) => .ok (acc, st1)
    else .ok (acc, st)

/-- `parseOperatorName` from src/types.ts. -/
def parseOperatorName : Nat → St → Except ParseError (Option Exp × St)
  | 0, st => .ok (none, st)
  | fuel + 1, st =>
    let st0 := if peek st = some '*' then advance st else st
    match readBraces (fun s => parseOperatorNameBody fuel s []) st0 with
    | .error e => .error e
    | .ok (none, st1) => .ok (none, st1)
    | .ok (some exps, st1) =>
      let name := expToTextList exps
      if name ≠ "" then .ok (some (EMathOperator name), st1)
      else .ok (none, st1)

/-- `parseBoxed` from src/types.ts. -/
def parseBoxed : Nat → St → Except ParseError (Option Exp × St)
  | 0, st => .ok (none, st)
  | fuel + 1, st =>
    match readBraces (fun s => parseExpr1 fuel s) st with
    | .error e => .error e
    | .ok (some (some e), st1) => .ok (some (EBoxed e), st1)
    | .ok (some none, st1) =>
      match parseExpr1 fuel st1 with
      | .error e => .error e
      | .ok (some e, st2) => .ok (some (EBoxed e), st2)
      | .ok (none, st2) => .ok (none, st2)
    | .ok (none, st1) =>
      match parseExpr1 fuel st1 with
      | .error e => .error e
      | .ok (some e, st2) => .ok (some (EBoxed e), st2)
      | .ok (none, st2) => .ok (none, st2)

/-- `parsePhantom` from src/types.ts. -/
def parsePhantom : Nat → St → Except ParseError (Option Exp × St)
  | 0, st => .ok (none, st)
  | fuel + 1, st =>
    match readBraces (fun s => parseExpr1 fuel s) st with
    | .error e => .error e
    | .ok (some (some e), st1) => .ok (some (EPhantom e), st1)
    | .ok (some none, st1) =>
      match parseExpr1 fuel st1 with
      | .error e => .error e
      | .ok (some e, st2) => .ok (some (EPhantom e), st2)
      | .ok (none, st2) => .ok (none, st2)
    | .ok (none, st1) =>
      match parseExpr1 fuel st1 with
      | .error e => .error e
      | .ok (some e, st2) => .ok (some (EPhantom e), st2)
      | .ok (none, st2) => .ok (none, st2)

/-- `parseCancel` from src/types.ts. -/
def parseCancel : Nat → StrokeType → St → Except ParseError (Option Exp × St)
  | 0, _, st => .ok (none, st)
  | fuel + 1, strokeType, st =>
    match readBraces (fun s => parseExpr1 fuel s) st with
    | .error e => .error e
    | .ok (some (some e), st1) => .ok (some (ECancel strokeType e), st1)
    | .ok (some none, st1) =>
      match parseExpr1 fuel st1 with
      | .error e => .error e
      | .ok (some e, st2) => .ok (some (ECancel strokeType e), st2)
      | .ok (none, st2) => .ok (none, st2)
    | .ok (none, st1) =>
      match parseExpr1 fuel st1 with
      | .error e => .error e
      | .ok (some e, st2) => .ok (some (ECancel strokeType e), st2)
      | .ok (none, st2) => .ok (none, st2)

/-- `parseEnvironment` from src/types.ts: the name is the raw text up to the
closing brace; names containing "matrix" (or "array") and names containing
"align" (or "eqnarray") are routed; anything else yields `none`. -/
def parseEnvironment : Nat → St → Except ParseError (Option Exp × St)
  | 0, st => .ok (none, st)
  | fuel + 1, st =>
    match readBraces scanToCloseBrace st with
    | .error e => .error e
    | .ok (none, st1) => .ok (none, st1)
    | .ok (some envName, st1) =>
      if envName = "" then .ok (none, st1)
      else if containsSub envName "matrix" ∨ envName = "array" then
        parseMatrix fuel envName st1
      else if containsSub envName "align" ∨ envName = "eqnarray" then
        parseAlign fuel st1
      else .ok (none, st1)

/-- The row loop of `parseMatrix`/`parseAlign`: stop at `\end` (consuming its
braced name), else parse a row, then continue only when a `\\` token follows
(with an optional bracketed size). -/
def parseMatrixLoop : Nat → St → List (List (List Exp)) →
    Except ParseError (List (List (List Exp)) × St)
  | 0, st, lines => .ok (lines, st)
  | fuel + 1, st0, lines =>
    let st := skipIgnorable st0
    let savedPos := st.pos
    let (cmd, stc) := readControlSequence st
    if cmd = some "\\end" then
      match readBraces (fun s => Except.ok ((), s)) stc with
      | .error e => .error e
      | .ok (_, st2) => .ok (lines, st2)
    else
      let st1 := { stc with pos := savedPos }
      match parseArrayLine fuel st1 with
      | .error e => .error e
      | .ok (line, st2) =>
        let lines1 := if line.length > 0 then lines ++ [line] else lines
        match matchStr "\\\\" st2 with
        | (true, st3) =>
          let st4 := skipIgnorable st3
          match readBrackets (fun s => Except.ok ((), s)) st4 with
          | .error e => .error e
          | .ok (_, st5) => parseMatrixLoop fuel st5 lines1
        | (false, st3) => .ok (lines1, st3)

/-- `parseMatrix` from src/types.ts: rows, all-center alignments (one per
column of the widest row), and delimiters selected by exact environment
name. -/
def parseMatrix : Nat → String → St → Except ParseError (Option Exp × St)
  | 0, _, st => .ok (none, st)
  | fuel + 1, envName, st =>
    match parseMatrixLoop fuel st [] with
    | .error e => .error e
    | .ok (lines, st1) =>
      let maxCols := (lines.map (fun l => l.length)).foldr max 0
      let alignments := List.replicate maxCols Alignment.AlignCenter
      let pair : String × String :=
        if envName = "pmatrix" then ("(", ")")
        else if envName = "bmatrix" then ("[", "]")
        else if envName = "Bmatrix" then ("\x7b", "\x7d")
        else if envName = "vmatrix" then ("|", "|")
        else if envName = "Vmatrix" then ("∥", "∥")
        else ("", "")
      let array := EArray alignments lines
      if pair.1 ≠ "" ∧ pair.2 ≠ "" then
        .ok (some (EDelimited pair.1 pair.2 [.Right array]), st1)
      else .ok (some array, st1)

/-- `parseAlign` from src/types.ts: same row loop, alternating right/left
column alignments, no delimiter wrapper. -/
def parseAlign : Nat → St → Except ParseError (Option Exp × St)
  | 0, st => .ok (none, st)
  | fuel + 1, st =>
    match parseMatrixLoop fuel st [] with
    | .error e => .error e
    | .ok (lines, st1) =>
      let maxCols := (lines.map (fun l => l.length)).foldr max 0
      let alignments := (List.range maxCols).map
        (fun i => if i % 2 = 0 then Alignment.AlignRight else Alignment.AlignLeft)
      .ok (some (EArray alignments lines), st1)

/-- The cell loop of `parseArrayLine`: `&` closes a cell, `\\` or end of
input closes the line (pushing the current cell), `\end` closes the line
without consuming, and an unparseable position drops the current cell. -/
def parseArrayLineLoop : Nat → St → List (List Exp) → List Exp →
    Except ParseError (List (List Exp) × St)
  | 0, st, cells, _ => .ok (cells, st)
  | fuel + 1, st0, cells, cur =>
    let st := skipIgnorable st0
    if peek st = some '&' then
      parseArrayLineLoop fuel (advance st) (cells ++ [cur]) []
    else
      match matchStr "\\\\" st with
      | (true, st1) => .ok (cells ++ [cur], st1)
      | (false, st1) =>
        if peek st1 = none then .ok (cells ++ [cur], st1)
        else
          let savedPos := st1.pos
          let (cmd, stc) := readControlSequence st1
          if cmd = some "\\end" then
            .ok (cells ++ [cur], { stc with pos := savedPos })
          else
            let st2 := { stc with pos := savedPos }
            match parseExpr fuel st2 with
            | .error e => .error e
            | .ok (some e, st3) => parseArrayLineLoop fuel st3 cells (cur ++ [e])
            | .ok (none, st3) => .ok (cells, st3)

/-- `parseArrayLine` from src/types.ts. -/
def parseArrayLine : Nat → St → Except ParseError (List (List Exp) × St)
  | 0, st => .ok ([], st)
  | fuel + 1, st => parseArrayLineLoop fuel st [] []

/-- `parseSubSup` from src/types.ts: `_`/`^` markers and prime sequences
after a base expression. -/
def parseSubSup : Nat → Exp → St → Except ParseError (Option Exp × St)
  | 0, _, st => .ok (none, st)
  | fuel + 1, base, st0 =>
    let st := skipIgnorable st0
    if peek st = some '_' then
      let st1 := skipIgnorable (advance st)
      match parseExpr1 fuel st1 with
      | .error e => .error e
      | .ok (none, st2) => .ok (none, st2)
      | .ok (some sub, st2) =>
        let st3 := skipIgnorable st2
        if peek st3 = some '^' then
          let st4 := skipIgnorable (advance st3)
          match parseExpr1 fuel st4 with
          | .error e => .error e
          | .ok (some sup, st5) => .ok (some (ESubsup base sub sup), st5)
          | .ok (none, st5) => .ok (some (ESub base sub), st5)
        else .ok (some (ESub base sub), st3)
    else if peek st = some '^' then
      let st1 := skipIgnorable (advance st)
      if peek st1 = some '\'' then
        let primeCount := ((st1.input.drop st1.pos).takeWhile (fun c => c = '\'')).length
        let st2 := advance st1 primeCount
        let primeSymbol :=
          if primeCount = 1 then "′"
          else if primeCount = 2 then "″"
          else if primeCount = 3 then "‴"
          else "⁗"
        let sup := ESymbol .Pun primeSymbol
        let st3 := skipIgnorable st2
        if peek st3 = some '_' then
          let st4 := skipIgnorable (advance st3)
          match parseExpr1 fuel st4 with
          | .error e => .error e
          | .ok (some sub, st5) => .ok (some (ESubsup base sub sup), st5)
          | .ok (none, st5) => .ok (some (ESuper base sup), st5)
        else .ok (some (ESuper base sup), st3)
      else
        match parseExpr1 fuel st1 with
        | .error e => .error e
        | .ok (none, st2) => .ok (none, st2)
        | .ok (some sup, st2) =>
          let st3 := skipIgnorable st2
          if peek st3 = some '_' then
            let st4 := skipIgnorable (advance st3)
            match parseExpr1 fuel st4 with
            | .error e => .error e
            | .ok (some sub, st5) => .ok (some (ESubsup base sub sup), st5)
            | .ok (none, st5) => .ok (some (ESuper base sup), st5)
          else .ok (some (ESuper base sup), st3)
    else .ok (none, st)
end

/-- `parse` from src/types.ts: the expression loop followed by the
binary-operator post-pass. -/
def parse (fuel : Nat) (st0 : St) : Except ParseError (List Exp × St) :=
  let st := skipIgnorable st0
  match parseLoop fuel st [] with
  | .error e => .error e
  | .ok (exps, st1) => .ok (fixBinList exps, st1)

/-- `readTeX` from src/types.ts: run the parser on the input from position 0.
The fuel is proportional to the input length with ample slack. -/
def readTeX (input : String) : Except ParseError (List Exp) :=
  match parse (input.length * 8 + 64) { input := input.data, pos := 0 } with
  | .error e => .error e
  | .ok (exps, _) => .ok exps
